import Mathlib

/-!
Shallow embedding of the editing core of `NoneTheWisr/editor`
(`src/lib.rs`, module `buffer`).

Modelling conventions:
* Rust `String`s are `List Char`; the program restricts itself to
  storage-unit column arithmetic, so char positions stand in for byte
  positions.
* `usize` is `Nat`; Rust `saturating_sub` is `Nat` subtraction, which
  saturates at `0`.
* Operations that can panic in a debug build (slice/`Vec`/`String`
  indexing out of bounds, integer-subtraction underflow, `unwrap` of
  `None`) are modelled as `Option`-returning functions where `none`
  means the Rust code panics; `some` results are what the Rust code
  produces when it returns normally.
* File contents are passed in and out as `List Char` values: `from_path`
  takes the bytes `fs::read_to_string` would yield, `save`/`save_as`
  return the bytes `fs::write` would receive.
-/

namespace Editor

/-- Rust `buffer::Cursor { x, y }` (zero-based column/row). -/
structure Cursor where
  x : Nat
  y : Nat
  deriving DecidableEq, Repr

/-- Rust `buffer::View { x, y, width, height }`. -/
structure View where
  x : Nat
  y : Nat
  width : Nat
  height : Nat
  deriving DecidableEq, Repr

/-- Rust `View::min_x`. -/
def View.min_x (v : View) : Nat := v.x

/-- Rust `View::max_x`: `x + width.saturating_sub(1)`. -/
def View.max_x (v : View) : Nat := v.x + (v.width - 1)

/-- Rust `View::min_y`. -/
def View.min_y (v : View) : Nat := v.y

/-- Rust `View::max_y`: `y + height.saturating_sub(1)`. -/
def View.max_y (v : View) : Nat := v.y + (v.height - 1)

/-- Rust `View::new(width, height)`. -/
def View.new (width height : Nat) : View :=
  { x := 0, y := 0, width := width, height := height }

/-- Rust `buffer::CursorMovement`. -/
inductive CursorMovement where
  | Up
  | Down
  | Left
  | Right
  | LineStart
  | LineEnd
  | TextStart
  | FirstLine
  | LastLine
  | ToLine (n : Nat)
  deriving DecidableEq, Repr

/-- Rust `buffer::Buffer`. -/
structure Buffer where
  lines : List (List Char)
  cursor : Cursor
  view : View
  file_path : Option (List Char)
  deriving DecidableEq, Repr

/-- Rust `Cursor::move_right`. -/
def Cursor.move_right (c : Cursor) : Cursor := { c with x := c.x + 1 }

/-- Rust `Cursor::move_left` (`x -= 1`; every call site guards `x ≠ 0`). -/
def Cursor.move_left (c : Cursor) : Cursor := { c with x := c.x - 1 }

/-- Rust `Cursor::move_up` (`y -= 1`; every call site guards `y ≠ 0`). -/
def Cursor.move_up (c : Cursor) : Cursor := { c with y := c.y - 1 }

/-- Rust `Cursor::move_down`. -/
def Cursor.move_down (c : Cursor) : Cursor := { c with y := c.y + 1 }

/-- Rust `Cursor::move_to_start_of_line`. -/
def Cursor.move_to_start_of_line (c : Cursor) : Cursor := { c with x := 0 }

/-- Rust `Cursor::move_to_start_of_next_line`. -/
def Cursor.move_to_start_of_next_line (c : Cursor) : Cursor :=
  c.move_down.move_to_start_of_line

/-- Split a character list at every `'\n'`; `n` newlines yield `n + 1`
segments, in order, without the separators. -/
def splitLF : List Char → List (List Char)
  | [] => [[]]
  | c :: cs =>
    if c = '\n' then [] :: splitLF cs
    else
      match splitLF cs with
      | [] => [[c]]
      | s :: ss => (c :: s) :: ss

/-- Strip one trailing `'\r'`, as Rust `str::lines` does to a segment
that was terminated by `'\n'` (a `"\r\n"` line ending). -/
def stripCR (l : List Char) : List Char :=
  if l.getLast? = some '\r' then l.dropLast else l

/-- Rust `str::lines`: split on `'\n'`, strip a `'\r'` from every
segment that was followed by a `'\n'`, and drop the final segment when
it is empty (the final line ending is optional). -/
def rustLines (s : List Char) : List (List Char) :=
  let segs := splitLF s
  let body := segs.dropLast.map stripCR
  match segs.getLast? with
  | some [] => body
  | some seg => body ++ [seg]
  | none => body

/-- Whether the content contains a CR-LF (`"\r\n"`) two-character
sequence — exactly the line endings `str::lines` normalises away. -/
def hasCRLF : List Char → Bool
  | c1 :: c2 :: rest => (c1 == '\r' && c2 == '\n') || hasCRLF (c2 :: rest)
  | _ => false

/-- Rust `Vec<String>::join("\n")`: the lines interleaved with `'\n'`. -/
def joinNL : List (List Char) → List Char
  | [] => []
  | [l] => l
  | l :: l' :: ls => l ++ '\n' :: joinNL (l' :: ls)

/-- Rust `Buffer::new(view)`. -/
def Buffer.new (view : View) : Buffer :=
  { lines := [[]]
    cursor := { x := 0, y := 0 }
    view := view
    file_path := none }

/-- Rust `Buffer::from_path(path, view)` on the successful I/O path, applied
to the raw bytes `content` of the file:
`(fs::read_to_string(&path)? + "\n").lines()`. -/
def Buffer.from_path (path : List Char) (content : List Char) (view : View) : Buffer :=
  { lines := rustLines (content ++ ['\n'])
    cursor := { x := 0, y := 0 }
    view := view
    file_path := some path }

/-- Rust `Buffer::save_as(path)` on the successful write path: returns the
bytes handed to `fs::write` (`self.lines.join("\n")`, no trailing
newline) together with the updated buffer (`file_path` re-pointed). -/
def Buffer.save_as (b : Buffer) (path : List Char) : List Char × Buffer :=
  (joinNL b.lines, { b with file_path := some path })

/-- Rust `Buffer::save`: `self.save_as(&self.file_path.clone().unwrap())`.
`none` models the panic of `unwrap()` when no path is associated. -/
def Buffer.save (b : Buffer) : Option (List Char × Buffer) :=
  match b.file_path with
  | none => none
  | some p => some (b.save_as p)

/-- Rust `Buffer::line_count`. -/
def Buffer.line_count (b : Buffer) : Nat := b.lines.length

/-- Rust `Buffer::cursor_at_line_start`. -/
def Buffer.cursor_at_line_start (b : Buffer) : Bool := b.cursor.x == 0

/-- Rust `Buffer::cursor_at_first_line`. -/
def Buffer.cursor_at_first_line (b : Buffer) : Bool := b.cursor.y == 0

/-- Rust `Buffer::cursor_at_last_line`: `y == lines.len().saturating_sub(1)`. -/
def Buffer.cursor_at_last_line (b : Buffer) : Bool := b.cursor.y == b.lines.length - 1

/-- Rust `Buffer::clamp_cursor_to_line_boundaries`; `none` is the panic of
`self.lines[self.cursor.y]` when the row is out of bounds. -/
def Buffer.clamp_cursor_to_line_boundaries (b : Buffer) : Option Buffer :=
  match b.lines[b.cursor.y]? with
  | none => none
  | some line => some { b with cursor := { b.cursor with x := min b.cursor.x line.length } }

/-- Rust `Buffer::adjust_view`: translate the viewport the minimal amount,
first on the `y` axis, then on the `x` axis, so the cursor is inside. -/
def Buffer.adjust_view (b : Buffer) : Buffer :=
  let v1 :=
    if b.cursor.y < b.view.min_y then { b.view with y := b.cursor.y }
    else if b.view.max_y < b.cursor.y then
      { b.view with y := b.view.y + (b.cursor.y - b.view.max_y) }
    else b.view
  let v2 :=
    if b.cursor.x < v1.min_x then { v1 with x := b.cursor.x }
    else if v1.max_x < b.cursor.x then
      { v1 with x := v1.x + (b.cursor.x - v1.max_x) }
    else v1
  { b with view := v2 }

/-- Rust `Buffer::move_cursor`; `none` models the panics of the row/column
indexing inside the individual arms. Every arm ends with
`adjust_view`. -/
def Buffer.move_cursor (b : Buffer) (movement : CursorMovement) : Option Buffer :=
  let after : Option Buffer :=
    match movement with
    | .Up =>
      let b' := if b.cursor_at_first_line then b else { b with cursor := b.cursor.move_up }
      b'.clamp_cursor_to_line_boundaries
    | .Down =>
      let b' := if b.cursor_at_last_line then b else { b with cursor := b.cursor.move_down }
      b'.clamp_cursor_to_line_boundaries
    | .Left =>
      if b.cursor_at_line_start then
        if b.cursor_at_first_line then some b
        else
          let c := b.cursor.move_up
          match b.lines[c.y]? with
          | none => none
          | some line => some { b with cursor := { c with x := line.length } }
      else some { b with cursor := b.cursor.move_left }
    | .Right =>
      match b.lines[b.cursor.y]? with
      | none => none
      | some line =>
        if b.cursor.x = line.length then
          if b.cursor_at_last_line then some b
          else some { b with cursor := b.cursor.move_to_start_of_next_line }
        else some { b with cursor := b.cursor.move_right }
    | .LineStart => some { b with cursor := b.cursor.move_to_start_of_line }
    | .LineEnd =>
      match b.lines[b.cursor.y]? with
      | none => none
      | some line => some { b with cursor := { b.cursor with x := line.length } }
    | .TextStart =>
      match b.lines[b.cursor.y]? with
      | none => none
      | some line =>
        some { b with cursor :=
          { b.cursor with x := (line.findIdx? (fun c => !c.isWhitespace)).getD 0 } }
    | .FirstLine =>
      some { b with cursor := { x := 0, y := 0 } }
    | .LastLine =>
      some { b with cursor := { x := 0, y := b.lines.length - 1 } }
    | .ToLine n =>
      some { b with cursor := { x := 0, y := n } }
  after.map Buffer.adjust_view

/-- Rust `Buffer::insert_char`: insert at the cursor's column, cursor one
column right, re-adjust the view; `none` models the panics of
`self.lines[y]` / `String::insert` on an out-of-range position. -/
def Buffer.insert_char (b : Buffer) (character : Char) : Option Buffer :=
  match b.lines[b.cursor.y]? with
  | none => none
  | some line =>
    if b.cursor.x ≤ line.length then
      some (Buffer.adjust_view
        { b with
          lines := b.lines.set b.cursor.y
            (line.take b.cursor.x ++ character :: line.drop b.cursor.x)
          cursor := b.cursor.move_right })
    else none

/-- Rust `Buffer::insert_string`: splice the whole string in at the cursor's
column and advance the column by its length. -/
def Buffer.insert_string (b : Buffer) (string : List Char) : Option Buffer :=
  match b.lines[b.cursor.y]? with
  | none => none
  | some line =>
    if b.cursor.x ≤ line.length then
      some (Buffer.adjust_view
        { b with
          lines := b.lines.set b.cursor.y
            (line.take b.cursor.x ++ string ++ line.drop b.cursor.x)
          cursor := { b.cursor with x := b.cursor.x + string.length } })
    else none

/-- Rust `Buffer::join_lines(first, last)`:
`splice(first..=last, once(concat))`; `none` models the slice-bounds
panic of `self.lines[first..=last]`. -/
def Buffer.join_lines (b : Buffer) (first last : Nat) : Option Buffer :=
  if first ≤ last + 1 ∧ last < b.lines.length then
    some { b with lines :=
      b.lines.take first ++
      ((b.lines.drop first).take (last + 1 - first)).flatten ::
      b.lines.drop (last + 1) }
  else none

/-- Rust `Buffer::remove_char` (forward delete). Note: no `adjust_view`. -/
def Buffer.remove_char (b : Buffer) : Option Buffer :=
  match b.lines[b.cursor.y]? with
  | none => none
  | some line =>
    if b.cursor.x = line.length then
      if b.cursor_at_last_line then some b
      else b.join_lines b.cursor.y (b.cursor.y + 1)
    else
      if b.cursor.x < line.length then
        let line' := line.take b.cursor.x ++ line.drop (b.cursor.x + 1)
        some { b with lines := b.lines.set b.cursor.y line' }
      else none

/-- Rust `Buffer::insert_line` (split at the cursor): the text after the
cursor becomes a new row below, cursor to the start of that row. -/
def Buffer.insert_line (b : Buffer) : Option Buffer :=
  match b.lines[b.cursor.y]? with
  | none => none
  | some line =>
    if b.cursor.x ≤ line.length then
      some (Buffer.adjust_view
        { b with
          lines := b.lines.take b.cursor.y ++
            line.take b.cursor.x :: line.drop b.cursor.x ::
            b.lines.drop (b.cursor.y + 1)
          cursor := b.cursor.move_to_start_of_next_line })
    else none

/-- Rust `Buffer::remove_line`. Note: no `adjust_view`. `none` models the
panic of `Vec::remove` on an out-of-bounds row. -/
def Buffer.remove_line (b : Buffer) : Option Buffer :=
  if b.cursor.y < b.lines.length then
    let should_move_cursor_up := b.cursor_at_last_line && decide (1 < b.lines.length)
    let lines' := b.lines.take b.cursor.y ++ b.lines.drop (b.cursor.y + 1)
    let cursor' := b.cursor.move_to_start_of_line
    let cursor' := if should_move_cursor_up then cursor'.move_up else cursor'
    some { b with
      lines := if lines'.isEmpty then [[]] else lines'
      cursor := cursor' }
  else none

/-- Rust `display::Screen`. -/
structure Screen where
  lines : List (List Char)
  cursor : Cursor
  deriving DecidableEq, Repr

/-- The `lines` part of `Buffer::display`: skip to the viewport row
offset, take `height` rows, crop each to the viewport columns, then pad
with `(max_y + 1).saturating_sub(line_count)` empty lines. -/
def Buffer.display_lines (b : Buffer) : List (List Char) :=
  let empty_count := (b.view.max_y + 1) - b.line_count
  (((b.lines.drop b.view.min_y).take b.view.height).map
    (fun line => (line.drop b.view.min_x).take b.view.width))
  ++ List.replicate empty_count []

/-- Debug-build `usize` subtraction: `none` is the underflow panic. -/
def checkedSub (a b : Nat) : Option Nat :=
  if b ≤ a then some (a - b) else none

/-- The cursor part of `Buffer::display`:
`(cursor.x - view.min_x(), cursor.y - view.min_y())` with debug-build
panic on underflow. -/
def Buffer.display_cursor (b : Buffer) : Option Cursor :=
  match checkedSub b.cursor.x b.view.min_x, checkedSub b.cursor.y b.view.min_y with
  | some dx, some dy => some { x := dx, y := dy }
  | _, _ => none

/-- Rust `Buffer::display`. -/
def Buffer.display (b : Buffer) : Option Screen :=
  b.display_cursor.map (fun c => { lines := b.display_lines, cursor := c })

/-- One public operation of the buffer, for stating whole-trace
invariants. -/
inductive Op where
  | move (m : CursorMovement)
  | insert_char (c : Char)
  | insert_string (s : List Char)
  | remove_char
  | insert_line
  | remove_line
  deriving DecidableEq, Repr

/-- Apply one public operation. -/
def Buffer.apply (b : Buffer) : Op → Option Buffer
  | .move m => b.move_cursor m
  | .insert_char c => b.insert_char c
  | .insert_string s => b.insert_string s
  | .remove_char => b.remove_char
  | .insert_line => b.insert_line
  | .remove_line => b.remove_line

/-- Apply a sequence of public operations, stopping at the first panic. -/
def Buffer.applyOps : Buffer → List Op → Option Buffer
  | b, [] => some b
  | b, op :: ops => (b.apply op).bind (fun b' => b'.applyOps ops)

/-- The spec's cursor invariant: the row addresses an existing line and
the column is at most that line's length. -/
def Buffer.cursorValid (b : Buffer) : Prop :=
  b.cursor.y < b.lines.length ∧ b.cursor.x ≤ (b.lines[b.cursor.y]?.getD []).length

instance (b : Buffer) : Decidable b.cursorValid := by
  unfold Buffer.cursorValid
  infer_instance

/-- The spec's viewport invariant: the cursor is inside the viewport on
both axes. -/
def Buffer.cursorInView (b : Buffer) : Prop :=
  b.view.min_y ≤ b.cursor.y ∧ b.cursor.y ≤ b.view.max_y ∧
  b.view.min_x ≤ b.cursor.x ∧ b.cursor.x ≤ b.view.max_x

instance (b : Buffer) : Decidable b.cursorInView := by
  unfold Buffer.cursorInView
  infer_instance

/-- Holds when every `ToLine` in the sequence is applied with an
in-range line number (the pre-validation §4.2 of the spec asks of the
caller). -/
def Buffer.opsOk : Buffer → List Op → Bool
  | _, [] => true
  | b, op :: ops =>
    (match op with
     | .move (.ToLine n) => decide (n < b.lines.length)
     | _ => true) &&
    (match b.apply op with
     | some b' => b'.opsOk ops
     | none => true)

/-! Section: Basic facts about `adjust_view` -/

theorem adjust_view_lines (b : Buffer) : b.adjust_view.lines = b.lines := by
  simp only [Buffer.adjust_view]

theorem adjust_view_cursor (b : Buffer) : b.adjust_view.cursor = b.cursor := by
  simp only [Buffer.adjust_view]

theorem adjust_view_file_path (b : Buffer) : b.adjust_view.file_path = b.file_path := by
  simp only [Buffer.adjust_view]

theorem adjust_view_width (b : Buffer) : b.adjust_view.view.width = b.view.width := by
  simp only [Buffer.adjust_view]
  split_ifs <;> rfl

theorem adjust_view_height (b : Buffer) : b.adjust_view.view.height = b.view.height := by
  simp only [Buffer.adjust_view]
  split_ifs <;> rfl

theorem adjust_view_y (b : Buffer) :
    b.adjust_view.view.y =
      if b.cursor.y < b.view.min_y then b.cursor.y
      else if b.view.max_y < b.cursor.y then b.view.y + (b.cursor.y - b.view.max_y)
      else b.view.y := by
  simp only [Buffer.adjust_view]
  split_ifs <;> rfl

theorem adjust_view_x (b : Buffer) :
    b.adjust_view.view.x =
      if b.cursor.x < b.view.min_x then b.cursor.x
      else if b.view.max_x < b.cursor.x then b.view.x + (b.cursor.x - b.view.max_x)
      else b.view.x := by
  simp only [Buffer.adjust_view, View.min_x, View.max_x]
  split_ifs <;> simp_all

theorem adjust_view_contains (b : Buffer) : b.adjust_view.cursorInView := by
  simp only [Buffer.cursorInView, Buffer.adjust_view, View.min_x, View.max_x,
    View.min_y, View.max_y]
  split_ifs <;> simp_all <;> omega

/-! Section: Shape of the results of the public operations -/

theorem move_cursor_shape (b : Buffer) (m : CursorMovement) (b' : Buffer)
    (h : b.move_cursor m = some b') :
    ∃ c : Cursor, b' = Buffer.adjust_view { b with cursor := c } := by
  cases m <;>
    simp only [Buffer.move_cursor, Buffer.clamp_cursor_to_line_boundaries,
      Option.map_eq_some'] at h <;>
    obtain ⟨a, ha, rfl⟩ := h <;>
    (repeat' split at ha) <;>
    (try cases ha) <;>
    exact ⟨_, rfl⟩

theorem insert_char_shape (b : Buffer) (ch : Char) (b' : Buffer)
    (h : b.insert_char ch = some b') :
    ∃ (L : List (List Char)) (c : Cursor),
      b' = Buffer.adjust_view { b with lines := L, cursor := c } := by
  simp only [Buffer.insert_char] at h
  (repeat' split at h) <;> (try cases h) <;> exact ⟨_, _, rfl⟩

theorem insert_string_shape (b : Buffer) (s : List Char) (b' : Buffer)
    (h : b.insert_string s = some b') :
    ∃ (L : List (List Char)) (c : Cursor),
      b' = Buffer.adjust_view { b with lines := L, cursor := c } := by
  simp only [Buffer.insert_string] at h
  (repeat' split at h) <;> (try cases h) <;> exact ⟨_, _, rfl⟩

theorem insert_line_shape (b : Buffer) (b' : Buffer)
    (h : b.insert_line = some b') :
    ∃ (L : List (List Char)) (c : Cursor),
      b' = Buffer.adjust_view { b with lines := L, cursor := c } := by
  simp only [Buffer.insert_line] at h
  (repeat' split at h) <;> (try cases h) <;> exact ⟨_, _, rfl⟩

theorem remove_char_keeps_cursor_view (b : Buffer) (b' : Buffer)
    (h : b.remove_char = some b') :
    b'.cursor = b.cursor ∧ b'.view = b.view := by
  simp only [Buffer.remove_char, Buffer.join_lines] at h
  (repeat' split at h) <;> (try cases h) <;> exact ⟨rfl, rfl⟩

theorem remove_line_keeps_view (b : Buffer) (b' : Buffer)
    (h : b.remove_line = some b') : b'.view = b.view := by
  simp only [Buffer.remove_line] at h
  (repeat' split at h) <;> (try cases h) <;> rfl

/-! Section: C7 — viewport adjustment is the minimal-motion policy -/

/-- C7: the viewport-adjustment step is the minimal-motion policy,
independently on each axis: a cursor coordinate below the viewport
minimum makes the offset on that axis exactly the cursor coordinate, a
coordinate above the maximum increases the offset by exactly
`cursor - max`, and otherwise the offset is unchanged; moreover no
public operation ever changes the viewport's width or height. -/
theorem c7_adjust_view_minimal_motion :
    (∀ b : Buffer,
      (b.adjust_view.view.y =
        if b.cursor.y < b.view.min_y then b.cursor.y
        else if b.view.max_y < b.cursor.y then b.view.y + (b.cursor.y - b.view.max_y)
        else b.view.y) ∧
      (b.adjust_view.view.x =
        if b.cursor.x < b.view.min_x then b.cursor.x
        else if b.view.max_x < b.cursor.x then b.view.x + (b.cursor.x - b.view.max_x)
        else b.view.x)) ∧
    (∀ (b : Buffer) (op : Op) (b' : Buffer), b.apply op = some b' →
      b'.view.width = b.view.width ∧ b'.view.height = b.view.height) := by
  refine ⟨fun b => ⟨adjust_view_y b, adjust_view_x b⟩, fun b op b' h => ?_⟩
  cases op with
  | move m =>
    obtain ⟨c, rfl⟩ := move_cursor_shape b m b' h
    exact ⟨adjust_view_width _, adjust_view_height _⟩
  | insert_char ch =>
    obtain ⟨L, c, rfl⟩ := insert_char_shape b ch b' h
    exact ⟨adjust_view_width _, adjust_view_height _⟩
  | insert_string s =>
    obtain ⟨L, c, rfl⟩ := insert_string_shape b s b' h
    exact ⟨adjust_view_width _, adjust_view_height _⟩
  | remove_char =>
    rw [(remove_char_keeps_cursor_view b b' h).2]
    exact ⟨rfl, rfl⟩
  | insert_line =>
    obtain ⟨L, c, rfl⟩ := insert_line_shape b b' h
    exact ⟨adjust_view_width _, adjust_view_height _⟩
  | remove_line =>
    rw [remove_line_keeps_view b b' h]
    exact ⟨rfl, rfl⟩

/-- C7 witness: the width/height-preservation part of
`c7_adjust_view_minimal_motion` applied to a concrete operation. -/
theorem c7_adjust_view_minimal_motion_witness :
    (Buffer.new (View.new 80 24)).view.width = (Buffer.new (View.new 80 24)).view.width ∧
    (Buffer.new (View.new 80 24)).view.height = (Buffer.new (View.new 80 24)).view.height :=
  c7_adjust_view_minimal_motion.2 (Buffer.new (View.new 80 24)) (Op.move CursorMovement.Down)
    (Buffer.new (View.new 80 24)) (by decide)

/-! Section: C4 — the viewport contains the cursor after public operations -/

/-- C4 counterexample: from a fresh buffer with a 2×3 viewport, typing
`a`, `b`, `c` scrolls the viewport to column offset 2; `remove_line`
then resets the cursor column to 0 without re-adjusting the viewport,
so afterwards `view.min_x() = 2 > 0 = cursor.x` — the viewport does not
contain the cursor. -/
theorem c4_counterexample :
    (Buffer.new { x := 0, y := 0, width := 2, height := 3 }).applyOps
        [Op.insert_char 'a', Op.insert_char 'b', Op.insert_char 'c', Op.remove_line] =
      some { lines := [[]], cursor := { x := 0, y := 0 },
             view := { x := 2, y := 0, width := 2, height := 3 }, file_path := none } ∧
    ¬ Buffer.cursorInView
        { lines := [[]], cursor := { x := 0, y := 0 },
          view := { x := 2, y := 0, width := 2, height := 3 }, file_path := none } := by
  decide

/-- C4 (amended): after every `move_cursor`, `insert_char`,
`insert_string` and `insert_line` that returns normally the viewport
contains the cursor on both axes; `remove_char` leaves both the cursor
and the viewport untouched (so it preserves containment); `remove_line`
is not covered — it moves the cursor without re-running the
view adjustment and can break containment. -/
theorem c4_view_contains_cursor :
    (∀ (b : Buffer) (m : CursorMovement) (b' : Buffer),
        b.move_cursor m = some b' → b'.cursorInView) ∧
    (∀ (b : Buffer) (ch : Char) (b' : Buffer),
        b.insert_char ch = some b' → b'.cursorInView) ∧
    (∀ (b : Buffer) (s : List Char) (b' : Buffer),
        b.insert_string s = some b' → b'.cursorInView) ∧
    (∀ (b b' : Buffer), b.insert_line = some b' → b'.cursorInView) ∧
    (∀ (b b' : Buffer), b.remove_char = some b' →
        b'.cursor = b.cursor ∧ b'.view = b.view) := by
  refine ⟨fun b m b' h => ?_, fun b ch b' h => ?_, fun b s b' h => ?_,
    fun b b' h => ?_, fun b b' h => remove_char_keeps_cursor_view b b' h⟩
  · obtain ⟨c, rfl⟩ := move_cursor_shape b m b' h
    exact adjust_view_contains _
  · obtain ⟨L, c, rfl⟩ := insert_char_shape b ch b' h
    exact adjust_view_contains _
  · obtain ⟨L, c, rfl⟩ := insert_string_shape b s b' h
    exact adjust_view_contains _
  · obtain ⟨L, c, rfl⟩ := insert_line_shape b b' h
    exact adjust_view_contains _

/-- C4 witness: containment after a concrete `move_cursor`. -/
theorem c4_view_contains_cursor_witness :
    Buffer.cursorInView (Buffer.new (View.new 5 4)) :=
  c4_view_contains_cursor.1 (Buffer.new (View.new 5 4)) CursorMovement.Down
    (Buffer.new (View.new 5 4)) (by decide)

/-! Section: Cursor validity -/

theorem findIdx?_getD_le_length {α : Type} (p : α → Bool) (l : List α) :
    (l.findIdx? p).getD 0 ≤ l.length := by
  cases hf : l.findIdx? p with
  | none => simp
  | some i =>
    have h := List.findIdx_eq_findIdx? p l
    rw [hf] at h
    simp only at h
    simp only [Option.getD_some]
    rw [← h]
    exact List.findIdx_le_length p

theorem flatten_take_head_le {α : Type} (x : List α) (xs : List (List α)) (k : Nat)
    (hk : 0 < k) : x.length ≤ ((x :: xs).take k).flatten.length := by
  cases k with
  | zero => omega
  | succ k =>
    simp only [List.take_succ_cons, List.flatten_cons, List.length_append]
    exact Nat.le_add_right _ _

theorem cursorValid_adjust_view (b : Buffer) :
    b.adjust_view.cursorValid ↔ b.cursorValid := by
  unfold Buffer.cursorValid
  rw [adjust_view_lines, adjust_view_cursor]

theorem clamp_valid (b b' : Buffer)
    (h : b.clamp_cursor_to_line_boundaries = some b') : b'.cursorValid := by
  unfold Buffer.clamp_cursor_to_line_boundaries at h
  split at h
  · cases h
  · rename_i line hline
    cases h
    unfold Buffer.cursorValid
    simp only [hline, Option.getD_some]
    exact ⟨(List.getElem?_eq_some.mp hline).1, min_le_right _ _⟩

theorem move_cursor_preserves_valid (b : Buffer) (m : CursorMovement) (b' : Buffer)
    (hv : b.cursorValid)
    (hok : ∀ n, m = CursorMovement.ToLine n → n < b.lines.length)
    (h : b.move_cursor m = some b') : b'.cursorValid := by
  obtain ⟨hy, hx⟩ := hv
  cases m <;>
    (simp only [Buffer.move_cursor, Option.map_eq_some'] at h;
     obtain ⟨a, ha, rfl⟩ := h;
     rw [cursorValid_adjust_view])
  -- Up
  · exact clamp_valid _ _ ha
  -- Down
  · exact clamp_valid _ _ ha
  -- Left
  · split at ha
    · split at ha
      · cases ha; exact ⟨hy, hx⟩
      · split at ha
        · cases ha
        · rename_i line hline
          cases ha
          unfold Buffer.cursorValid
          simp only [Cursor.move_up] at hline ⊢
          simp only [hline, Option.getD_some]
          exact ⟨(List.getElem?_eq_some.mp hline).1, le_refl _⟩
    · cases ha
      refine ⟨hy, ?_⟩
      simp only [Cursor.move_left]
      exact le_trans (Nat.sub_le _ _) hx
  -- Right
  · split at ha
    · cases ha
    · rename_i line hline
      split at ha
      · split at ha
        · cases ha; exact ⟨hy, hx⟩
        · cases ha
          rename_i hlast
          unfold Buffer.cursorValid
          simp only [Cursor.move_to_start_of_next_line, Cursor.move_down,
            Cursor.move_to_start_of_line]
          simp only [Buffer.cursor_at_last_line, beq_iff_eq] at hlast
          refine ⟨?_, Nat.zero_le _⟩
          have := (List.getElem?_eq_some.mp hline).1
          omega
      · cases ha
        rename_i hxe
        refine ⟨hy, ?_⟩
        simp only [Cursor.move_right]
        simp only [hline, Option.getD_some] at hx ⊢
        omega
  -- LineStart
  · cases ha
    exact ⟨hy, Nat.zero_le _⟩
  -- LineEnd
  · split at ha
    · cases ha
    · rename_i line hline
      cases ha
      unfold Buffer.cursorValid
      simp only [hline, Option.getD_some]
      exact ⟨(List.getElem?_eq_some.mp hline).1, le_refl _⟩
  -- TextStart
  · split at ha
    · cases ha
    · rename_i line hline
      cases ha
      unfold Buffer.cursorValid
      simp only [hline, Option.getD_some]
      exact ⟨(List.getElem?_eq_some.mp hline).1, findIdx?_getD_le_length _ _⟩
  -- FirstLine
  · cases ha
    refine ⟨?_, Nat.zero_le _⟩
    show 0 < b.lines.length
    omega
  -- LastLine
  · cases ha
    refine ⟨?_, Nat.zero_le _⟩
    show b.lines.length - 1 < b.lines.length
    omega
  -- ToLine
  · rename_i n
    cases ha
    exact ⟨hok n rfl, Nat.zero_le _⟩

theorem insert_char_preserves_valid (b : Buffer) (ch : Char) (b' : Buffer)
    (h : b.insert_char ch = some b') : b'.cursorValid := by
  unfold Buffer.insert_char at h
  split at h
  · cases h
  · rename_i line hline
    split at h
    · cases h
      rename_i hxle
      rw [cursorValid_adjust_view]
      unfold Buffer.cursorValid
      have hylt := (List.getElem?_eq_some.mp hline).1
      simp only [Cursor.move_right, List.length_set]
      refine ⟨hylt, ?_⟩
      rw [List.getElem?_set_self hylt, Option.getD_some]
      simp only [List.length_append, List.length_take, List.length_cons, List.length_drop]
      omega
    · cases h

theorem insert_string_preserves_valid (b : Buffer) (s : List Char) (b' : Buffer)
    (h : b.insert_string s = some b') : b'.cursorValid := by
  unfold Buffer.insert_string at h
  split at h
  · cases h
  · rename_i line hline
    split at h
    · cases h
      rename_i hxle
      rw [cursorValid_adjust_view]
      unfold Buffer.cursorValid
      have hylt := (List.getElem?_eq_some.mp hline).1
      simp only [List.length_set]
      refine ⟨hylt, ?_⟩
      rw [List.getElem?_set_self hylt, Option.getD_some]
      simp only [List.length_append, List.length_take, List.length_drop]
      omega
    · cases h

theorem insert_line_preserves_valid (b : Buffer) (b' : Buffer)
    (h : b.insert_line = some b') : b'.cursorValid := by
  unfold Buffer.insert_line at h
  split at h
  · cases h
  · rename_i line hline
    split at h
    · cases h
      rw [cursorValid_adjust_view]
      unfold Buffer.cursorValid
      have hylt := (List.getElem?_eq_some.mp hline).1
      simp only [Cursor.move_to_start_of_next_line, Cursor.move_down,
        Cursor.move_to_start_of_line]
      refine ⟨?_, Nat.zero_le _⟩
      simp only [List.length_append, List.length_take, List.length_cons, List.length_drop]
      omega
    · cases h

theorem remove_char_preserves_valid (b : Buffer) (b' : Buffer)
    (h : b.remove_char = some b') : b'.cursorValid := by
  unfold Buffer.remove_char at h
  split at h
  · cases h
  · rename_i line hline
    have hylt := (List.getElem?_eq_some.mp hline).1
    split at h
    · rename_i hxeq
      split at h
      · cases h
        exact ⟨hylt, by simp only [hline, Option.getD_some]; exact le_of_eq hxeq⟩
      · rename_i hlast
        simp only [Buffer.cursor_at_last_line, beq_iff_eq] at hlast
        unfold Buffer.join_lines at h
        split at h
        · cases h
          rename_i hrange
          unfold Buffer.cursorValid
          have hy1 : b.cursor.y + 1 < b.lines.length := by omega
          constructor
          · dsimp only
            simp only [List.length_append, List.length_take, List.length_cons,
              List.length_drop]
            omega
          · dsimp only
            rw [List.getElem?_append_right (by rw [List.length_take]; omega)]
            have htk : (b.lines.take b.cursor.y).length = b.cursor.y := by
              rw [List.length_take]; omega
            rw [htk, Nat.sub_self]
            simp only [List.getElem?_cons_zero, Option.getD_some]
            rw [List.drop_eq_getElem_cons hylt, (List.getElem?_eq_some.mp hline).2, hxeq]
            exact flatten_take_head_le line _ _ (by omega)
        · cases h
    · rename_i hxne
      split at h
      · cases h
        rename_i hxlt
        unfold Buffer.cursorValid
        simp only [List.length_set]
        refine ⟨hylt, ?_⟩
        rw [List.getElem?_set_self hylt, Option.getD_some]
        simp only [List.length_append, List.length_take, List.length_drop]
        omega
      · cases h

theorem remove_line_preserves_valid (b : Buffer) (b' : Buffer)
    (h : b.remove_line = some b') : b'.cursorValid := by
  unfold Buffer.remove_line at h
  split at h
  · rename_i hylt
    rw [Option.some.injEq] at h
    subst h
    have hlen : (b.lines.take b.cursor.y ++ b.lines.drop (b.cursor.y + 1)).length =
        b.lines.length - 1 := by
      simp only [List.length_append, List.length_take, List.length_drop]
      omega
    unfold Buffer.cursorValid
    dsimp only
    refine ⟨?_, ?_⟩
    · split_ifs with hup hemp hemp
      · -- contradiction: a last line beyond the first removed, yet nothing remains
        simp only [Bool.and_eq_true, Buffer.cursor_at_last_line, beq_iff_eq,
          decide_eq_true_eq] at hup
        rw [List.isEmpty_iff, ← List.length_eq_zero, hlen] at hemp
        omega
      · -- cursor was on the last line and more than one line remains: move up
        simp only [Bool.and_eq_true, Buffer.cursor_at_last_line, beq_iff_eq,
          decide_eq_true_eq] at hup
        simp only [Cursor.move_up, Cursor.move_to_start_of_line]
        rw [hlen]
        omega
      · -- the removed line was the only one: a fresh empty line is pushed
        rw [List.isEmpty_iff, ← List.length_eq_zero, hlen] at hemp
        simp only [Cursor.move_to_start_of_line, List.length_cons, List.length_nil]
        omega
      · -- cursor was not on the last line
        simp only [Bool.and_eq_true, Buffer.cursor_at_last_line, beq_iff_eq,
          decide_eq_true_eq] at hup
        rw [List.isEmpty_iff, ← List.length_eq_zero, hlen] at hemp
        simp only [Cursor.move_to_start_of_line]
        rw [hlen]
        have hne : ¬ b.cursor.y = b.lines.length - 1 := fun hy => hup ⟨hy, by omega⟩
        omega
    · split_ifs <;>
        (simp only [Cursor.move_up, Cursor.move_to_start_of_line]; exact Nat.zero_le _)
  · cases h

theorem apply_preserves_valid (b : Buffer) (op : Op) (b' : Buffer)
    (hv : b.cursorValid)
    (hok : ∀ n, op = Op.move (CursorMovement.ToLine n) → n < b.lines.length)
    (h : b.apply op = some b') : b'.cursorValid := by
  cases op with
  | move m =>
    exact move_cursor_preserves_valid b m b' hv (fun n hn => hok n (by rw [hn])) h
  | insert_char ch => exact insert_char_preserves_valid b ch b' h
  | insert_string s => exact insert_string_preserves_valid b s b' h
  | remove_char => exact remove_char_preserves_valid b b' h
  | insert_line => exact insert_line_preserves_valid b b' h
  | remove_line => exact remove_line_preserves_valid b b' h

/-! Section: C1 — the cursor stays valid -/

/-- C1 counterexample: starting from a fresh buffer (whose cursor is
valid), the single public operation `move_cursor (ToLine 100)` leaves
the cursor on row 100 of a 1-line buffer, so `cursor.y < line_count()`
fails afterwards. -/
theorem c1_counterexample :
    (Buffer.new { x := 0, y := 0, width := 80, height := 24 }).applyOps
        [Op.move (CursorMovement.ToLine 100)] =
      some { lines := [[]], cursor := { x := 0, y := 100 },
             view := { x := 0, y := 77, width := 80, height := 24 }, file_path := none } ∧
    Buffer.cursorValid (Buffer.new { x := 0, y := 0, width := 80, height := 24 }) ∧
    ¬ Buffer.cursorValid
        { lines := [[]], cursor := { x := 0, y := 100 },
          view := { x := 0, y := 77, width := 80, height := 24 }, file_path := none } := by
  decide

/-- C1 (amended): for every buffer whose cursor is valid and every
sequence of public operations in which each `ToLine(n)` is applied with
`n < line_count()` at that point (the pre-validation the spec asks of
the caller), every normally-returning run leaves the cursor valid:
`cursor.y < line_count()` and `cursor.x ≤ length(line[cursor.y])`. -/
theorem c1_cursor_stays_valid (ops : List Op) :
    ∀ (b b' : Buffer), b.cursorValid → b.opsOk ops = true →
      b.applyOps ops = some b' → b'.cursorValid := by
  induction ops with
  | nil =>
    intro b b' hv _ h
    cases h
    exact hv
  | cons op ops ih =>
    intro b b' hv hok h
    simp only [Buffer.applyOps, Option.bind_eq_some] at h
    obtain ⟨a, ha, hrest⟩ := h
    simp only [Buffer.opsOk, Bool.and_eq_true] at hok
    obtain ⟨hok1, hok2⟩ := hok
    rw [ha] at hok2
    refine ih a b' ?_ hok2 hrest
    refine apply_preserves_valid b op a hv ?_ ha
    intro n hn
    subst hn
    simpa using hok1

/-- C1 witness: a concrete run (insert a character, move left, forward
delete) of `c1_cursor_stays_valid`. -/
theorem c1_cursor_stays_valid_witness :
    Buffer.cursorValid
      { lines := [[]], cursor := { x := 0, y := 0 },
        view := { x := 0, y := 0, width := 80, height := 24 }, file_path := none } :=
  c1_cursor_stays_valid [Op.insert_char 'a', Op.move CursorMovement.Left, Op.remove_char]
    (Buffer.new { x := 0, y := 0, width := 80, height := 24 }) _
    (by decide) (by decide) (by decide)

/-! Section: C3 — the line store is never empty -/

theorem apply_preserves_nonempty (b : Buffer) (op : Op) (b' : Buffer)
    (hb : 1 ≤ b.lines.length) (h : b.apply op = some b') : 1 ≤ b'.lines.length := by
  cases op with
  | move m =>
    obtain ⟨c, rfl⟩ := move_cursor_shape b m b' h
    rw [adjust_view_lines]
    exact hb
  | insert_char ch =>
    replace h : b.insert_char ch = some b' := h
    unfold Buffer.insert_char at h
    (repeat' split at h) <;> (try cases h)
    rw [adjust_view_lines]
    simpa using hb
  | insert_string s =>
    replace h : b.insert_string s = some b' := h
    unfold Buffer.insert_string at h
    (repeat' split at h) <;> (try cases h)
    rw [adjust_view_lines]
    simpa using hb
  | remove_char =>
    replace h : b.remove_char = some b' := h
    unfold Buffer.remove_char Buffer.join_lines at h
    (repeat' split at h) <;> (try cases h)
    · exact hb
    · show 1 ≤ (List.take _ _ ++ _ :: _).length
      simp only [List.length_append, List.length_cons]
      omega
    · simpa using hb
  | insert_line =>
    replace h : b.insert_line = some b' := h
    unfold Buffer.insert_line at h
    (repeat' split at h) <;> (try cases h)
    rw [adjust_view_lines]
    show 1 ≤ (List.take _ _ ++ _ :: _ :: _).length
    simp only [List.length_append, List.length_cons]
    omega
  | remove_line =>
    replace h : b.remove_line = some b' := h
    unfold Buffer.remove_line at h
    split at h
    · rw [Option.some.injEq] at h
      subst h
      dsimp only
      split
      · simp
      · rename_i hemp
        simp only [List.isEmpty_iff] at hemp
        exact List.length_pos.mpr hemp
    · cases h

theorem splitLF_ne_nil (s : List Char) : splitLF s ≠ [] := by
  cases s with
  | nil => simp [splitLF]
  | cons c cs =>
    unfold splitLF
    split
    · simp
    · split <;> simp

theorem splitLF_append_nl (s : List Char) : splitLF (s ++ ['\n']) = splitLF s ++ [[]] := by
  induction s with
  | nil => simp [splitLF]
  | cons c cs ih =>
    rw [List.cons_append]
    by_cases hc : c = '\n'
    · subst hc
      simp only [splitLF, eq_self_iff_true, if_true, ih, List.cons_append]
    · cases hs : splitLF cs with
      | nil => exact absurd hs (splitLF_ne_nil cs)
      | cons s ss =>
        simp only [splitLF, if_neg hc, ih, hs, List.cons_append]

theorem rustLines_append_nl (s : List Char) :
    rustLines (s ++ ['\n']) = (splitLF s).map stripCR := by
  simp only [rustLines, splitLF_append_nl, List.getLast?_concat, List.dropLast_concat]

theorem from_path_lines_nonempty (p c : List Char) (v : View) :
    1 ≤ (Buffer.from_path p c v).lines.length := by
  show 1 ≤ (rustLines (c ++ ['\n'])).length
  rw [rustLines_append_nl, List.length_map]
  have := splitLF_ne_nil c
  cases hs : splitLF c with
  | nil => exact absurd hs this
  | cons s ss => simp

theorem applyOps_preserves_nonempty (ops : List Op) :
    ∀ (b b' : Buffer), 1 ≤ b.lines.length →
      b.applyOps ops = some b' → 1 ≤ b'.lines.length := by
  induction ops with
  | nil =>
    intro b b' hb h
    cases h
    exact hb
  | cons op ops ih =>
    intro b b' hb h
    simp only [Buffer.applyOps, Option.bind_eq_some] at h
    obtain ⟨a, ha, hrest⟩ := h
    exact ih a b' (apply_preserves_nonempty b op a hb ha) hrest

/-- C3: every buffer reachable from construction (`new` or a successful
`from_path`) by a normally-returning sequence of public operations has
`line_count() ≥ 1`; moreover `remove_line()` on a buffer with exactly
one line (when it returns normally) leaves exactly one empty line. -/
theorem c3_line_count_positive :
    (∀ (v : View) (ops : List Op) (b' : Buffer),
        (Buffer.new v).applyOps ops = some b' → 1 ≤ b'.line_count) ∧
    (∀ (p c : List Char) (v : View) (ops : List Op) (b' : Buffer),
        (Buffer.from_path p c v).applyOps ops = some b' → 1 ≤ b'.line_count) ∧
    (∀ (b b' : Buffer), b.lines.length = 1 → b.remove_line = some b' →
        b'.lines = [[]]) := by
  refine ⟨fun v ops b' h => ?_, fun p c v ops b' h => ?_, fun b b' h1 h => ?_⟩
  · exact applyOps_preserves_nonempty ops _ b' (by simp [Buffer.new]) h
  · exact applyOps_preserves_nonempty ops _ b' (from_path_lines_nonempty p c v) h
  · unfold Buffer.remove_line at h
    split at h
    · rename_i hylt
      rw [Option.some.injEq] at h
      subst h
      show (if _ then _ else _) = [[]]
      have hy0 : b.cursor.y = 0 := by omega
      have : (b.lines.take b.cursor.y ++ b.lines.drop (b.cursor.y + 1)).length = 0 := by
        simp only [List.length_append, List.length_take, List.length_drop]
        omega
      rw [List.length_eq_zero] at this
      simp [this]
    · cases h

/-- C3 witness: `remove_line` from a fresh one-line buffer keeps one
(empty) line. -/
theorem c3_line_count_positive_witness :
    1 ≤ Buffer.line_count
      { lines := [[]], cursor := { x := 0, y := 0 },
        view := { x := 0, y := 0, width := 80, height := 24 }, file_path := none } :=
  c3_line_count_positive.1 { x := 0, y := 0, width := 80, height := 24 }
    [Op.remove_line] _ (by decide)

/-! Section: C2 — `ToLine` does not clamp -/

/-- C2 counterexample: `ToLine(100)` on a 5-line buffer leaves the
cursor on row 100 (and column 0) — it does not clamp the row to 4. -/
theorem c2_counterexample :
    (Buffer.move_cursor
        { lines := [['a'], ['b'], ['c'], ['d'], ['e']], cursor := { x := 0, y := 0 },
          view := { x := 0, y := 0, width := 80, height := 24 }, file_path := none }
        (CursorMovement.ToLine 100)) =
      some { lines := [['a'], ['b'], ['c'], ['d'], ['e']], cursor := { x := 0, y := 100 },
             view := { x := 0, y := 77, width := 80, height := 24 }, file_path := none } ∧
    ¬ (100 = 4) := by
  decide

/-- C2 (amended): `move_cursor (ToLine n)` always succeeds and sets the
cursor row to `n` unconditionally — with no clamping for `n ≥
line_count()` — and the column to 0; the lines are untouched. -/
theorem c2_toLine_sets_row_unclamped (b : Buffer) (n : Nat) :
    b.move_cursor (CursorMovement.ToLine n) =
      some (Buffer.adjust_view { b with cursor := { x := 0, y := n } }) ∧
    (Buffer.adjust_view { b with cursor := { x := 0, y := n } }).cursor = { x := 0, y := n } ∧
    (Buffer.adjust_view { b with cursor := { x := 0, y := n } }).lines = b.lines :=
  ⟨rfl, adjust_view_cursor _, adjust_view_lines _⟩

/-! Section: C5 — `save()` without an associated path -/

/-- C5 counterexample: `save()` on a fresh scratch buffer (no associated
path) does not produce an explicit failure result — the program calls
`self.file_path.clone().unwrap()` and panics (modelled by `none`); no
`NoAssociatedPath` error value exists anywhere in the program. -/
theorem c5_counterexample :
    (Buffer.new { x := 0, y := 0, width := 80, height := 24 }).save = none := by
  decide

/-- C5 (amended): for every buffer whose associated file path is absent,
`save()` panics on the `unwrap()` of the absent path — a crash, not an
explicit `NoAssociatedPath` failure result; the panic occurs before any
write or any mutation of the buffer. -/
theorem c5_save_no_path_panics (b : Buffer) (h : b.file_path = none) :
    b.save = none := by
  unfold Buffer.save
  rw [h]

/-- C5 witness: `c5_save_no_path_panics` on a fresh scratch buffer. -/
theorem c5_save_no_path_panics_witness :
    Buffer.save
      { lines := [[]], cursor := { x := 0, y := 0 },
        view := { x := 0, y := 0, width := 80, height := 24 }, file_path := none } = none :=
  c5_save_no_path_panics _ (by decide)

/-! Section: C6 — load/save round trip -/

theorem hasCRLF_crlf (l : List Char) : hasCRLF ('\r' :: '\n' :: l) = true := by
  show ((('\r' : Char) == '\r') && (('\n' : Char) == '\n')) || hasCRLF ('\n' :: l) = true
  simp

theorem hasCRLF_tail (c : Char) (l : List Char) (h : hasCRLF (c :: l) = false) :
    hasCRLF l = false := by
  cases l with
  | nil => rfl
  | cons d rest =>
    rw [hasCRLF, Bool.or_eq_false_iff] at h
    exact h.2

theorem stripCR_nil : stripCR [] = [] := by
  simp [stripCR]

theorem stripCR_eq_self_getLast (s : List Char) (hne : s ≠ [])
    (h : stripCR s = s) : s.getLast? ≠ some '\r' := by
  intro hl
  unfold stripCR at h
  rw [if_pos hl] at h
  have hlen : s.dropLast.length = s.length := by rw [h]
  rw [List.length_dropLast] at hlen
  have : 0 < s.length := List.length_pos.mpr hne
  omega

theorem splitLF_head_nil (cs : List Char) (ss : List (List Char))
    (h : splitLF cs = [] :: ss) : cs = [] ∨ ∃ cs', cs = '\n' :: cs' := by
  cases cs with
  | nil => exact Or.inl rfl
  | cons c cs' =>
    unfold splitLF at h
    split at h
    · rename_i hc
      exact Or.inr ⟨cs', by rw [hc]⟩
    · split at h <;> simp_all

theorem joinNL_splitLF (s : List Char) : joinNL (splitLF s) = s := by
  induction s with
  | nil => rfl
  | cons c cs ih =>
    by_cases hc : c = '\n'
    · subst hc
      rw [splitLF, if_pos rfl]
      cases hs : splitLF cs with
      | nil => exact absurd hs (splitLF_ne_nil cs)
      | cons s1 ss =>
        rw [joinNL]
        rw [hs] at ih
        rw [ih]
        rfl
    · cases hs : splitLF cs with
      | nil => exact absurd hs (splitLF_ne_nil cs)
      | cons s1 ss =>
        rw [splitLF, if_neg hc, hs]
        rw [hs] at ih
        cases ss with
        | nil =>
          rw [joinNL] at ih ⊢
          rw [ih]
        | cons t ts =>
          rw [joinNL] at ih ⊢
          rw [List.cons_append, ih]

theorem mapStripCR_splitLF (s : List Char) (h : hasCRLF (s ++ ['\n']) = false) :
    (splitLF s).map stripCR = splitLF s := by
  induction s with
  | nil => simp [splitLF, stripCR_nil]
  | cons c cs ih =>
    have htl : hasCRLF (cs ++ ['\n']) = false :=
      hasCRLF_tail c _ (by simpa using h)
    by_cases hc : c = '\n'
    · subst hc
      rw [splitLF, if_pos rfl]
      rw [List.map_cons, stripCR_nil, ih htl]
    · cases hs : splitLF cs with
      | nil => exact absurd hs (splitLF_ne_nil cs)
      | cons s1 ss =>
        rw [splitLF, if_neg hc, hs]
        rw [hs] at ih
        have ih' := ih htl
        rw [List.map_cons] at ih' ⊢
        have hstrip1 : stripCR s1 = s1 := (List.cons.injEq _ _ _ _ ▸ ih').1
        have hss : ss.map stripCR = ss := (List.cons.injEq _ _ _ _ ▸ ih').2
        rw [hss]
        have hcs1 : stripCR (c :: s1) = c :: s1 := by
          unfold stripCR
          rw [if_neg ?_]
          cases s1 with
          | nil =>
            simp only [List.getLast?_singleton, Option.some.injEq]
            intro hcr
            subst hcr
            rcases splitLF_head_nil cs ss hs with hnil | ⟨cs', hcons⟩
            · subst hnil
              exact absurd h (by decide)
            · subst hcons
              rw [List.cons_append, List.cons_append, hasCRLF_crlf] at h
              simp at h
          | cons d ds =>
            rw [List.getLast?_cons_cons]
            exact stripCR_eq_self_getLast (d :: ds) (by simp) hstrip1
        rw [hcs1]

theorem joinNL_append_singleton (ls : List (List Char)) (x : List Char)
    (h : ls ≠ []) : joinNL (ls ++ [x]) = joinNL ls ++ '\n' :: x := by
  induction ls with
  | nil => exact absurd rfl h
  | cons a ls ih =>
    cases ls with
    | nil => rfl
    | cons b ls' =>
      have ih' := ih (by simp)
      simp only [List.cons_append] at ih' ⊢
      rw [joinNL, ih', joinNL, List.append_assoc, List.cons_append]

/-- C6 counterexample: the file content `"a\r\n"` ends in exactly one
trailing newline, yet `from_path` followed immediately by `save()`
writes back `"a\n"` — `str::lines` strips the `"\r\n"` ending, so the
round trip is not byte-identical. -/
theorem c6_counterexample :
    (['a', '\r', '\n'] : List Char) = ['a', '\r'] ++ ['\n'] ∧
    (['a', '\r'] : List Char).getLast? ≠ some '\n' ∧
    ((Buffer.from_path [] ['a', '\r', '\n']
        { x := 0, y := 0, width := 80, height := 24 }).save).map Prod.fst =
      some ['a', '\n'] ∧
    (['a', '\n'] : List Char) ≠ ['a', '\r', '\n'] := by
  decide

/-- C6 (amended): for every file whose content ends in exactly one
trailing newline and contains no CR-LF (`"\r\n"`) sequence, `from_path`
followed immediately by `save()` (no edits) writes back byte-identical
content. -/
theorem c6_round_trip (p content D : List Char) (v : View)
    (hD : content = D ++ ['\n'])
    (_hone : D.getLast? ≠ some '\n')
    (hcr : hasCRLF content = false) :
    ((Buffer.from_path p content v).save).map Prod.fst = some content := by
  subst hD
  show some (joinNL (rustLines ((D ++ ['\n']) ++ ['\n']))) = _
  rw [rustLines_append_nl, splitLF_append_nl, List.map_append]
  rw [mapStripCR_splitLF D hcr]
  rw [List.map_singleton, stripCR_nil]
  rw [joinNL_append_singleton _ _ (splitLF_ne_nil D)]
  rw [joinNL_splitLF]

/-- C6 witness: the round trip on the content `"a\n"`. -/
theorem c6_round_trip_witness :
    ((Buffer.from_path [] ['a', '\n']
        { x := 0, y := 0, width := 80, height := 24 }).save).map Prod.fst =
      some ['a', '\n'] :=
  c6_round_trip [] ['a', '\n'] ['a'] { x := 0, y := 0, width := 80, height := 24 }
    rfl (by decide) (by decide)

/-! Section: C8 — `display()` yields exactly `height` lines -/

/-- C8 counterexample: a reachable buffer (four `insert_line`s then
`ToLine 100` from a fresh buffer with a 2×3 viewport) whose viewport row
offset (98) exceeds its line count (5); `display()` then yields 96
lines, not the viewport height 3. -/
theorem c8_counterexample :
    (Buffer.new { x := 0, y := 0, width := 2, height := 3 }).applyOps
        [Op.insert_line, Op.insert_line, Op.insert_line, Op.insert_line,
         Op.move (CursorMovement.ToLine 100)] =
      some { lines := [[], [], [], [], []], cursor := { x := 0, y := 100 },
             view := { x := 0, y := 98, width := 2, height := 3 }, file_path := none } ∧
    ¬ (Buffer.display_lines
        { lines := [[], [], [], [], []], cursor := { x := 0, y := 100 },
          view := { x := 0, y := 98, width := 2, height := 3 }, file_path := none }).length =
      (3 : Nat) := by
  decide

/-- C8 (amended): for every buffer whose viewport row offset does not
exceed the line count (`view.min_y() < line_count()`, which holds
whenever the cursor is valid and visible), `display()` yields exactly
`height` lines: the lines in the viewport's row range, each cropped to
the viewport's column range, followed by exactly as many empty padding
lines as needed; in particular with viewport height 3 and a 2-line
buffer it yields exactly 3 rows, the third an empty padding line. -/
theorem c8_display_exact_height :
    (∀ b : Buffer, b.view.min_y < b.line_count →
      b.display_lines.length = b.view.height ∧
      b.display_lines =
        (((b.lines.drop b.view.min_y).take b.view.height).map
          (fun line => (line.drop b.view.min_x).take b.view.width)) ++
        List.replicate
          (b.view.height - ((b.lines.drop b.view.min_y).take b.view.height).length) []) ∧
    Buffer.display_lines
        { lines := [['a', 'b'], ['c']], cursor := { x := 0, y := 0 },
          view := { x := 0, y := 0, width := 5, height := 3 }, file_path := none } =
      [['a', 'b'], ['c'], []] := by
  refine ⟨fun b h => ?_, by decide⟩
  have hy : b.view.y < b.lines.length := h
  constructor
  · unfold Buffer.display_lines Buffer.line_count View.max_y View.min_y View.min_x
    dsimp only
    simp only [List.length_append, List.length_map, List.length_take, List.length_drop,
      List.length_replicate]
    omega
  · unfold Buffer.display_lines Buffer.line_count View.max_y View.min_y View.min_x
    dsimp only
    have : (b.view.y + (b.view.height - 1) + 1) - b.lines.length =
        b.view.height - ((b.lines.drop b.view.y).take b.view.height).length := by
      rw [List.length_take, List.length_drop]
      omega
    rw [this]

/-- C8 witness: the general part of `c8_display_exact_height` on the
height-3, 2-line scenario buffer. -/
theorem c8_display_exact_height_witness :
    (Buffer.display_lines
        { lines := [['a', 'b'], ['c']], cursor := { x := 0, y := 0 },
          view := { x := 0, y := 0, width := 5, height := 3 }, file_path := none }).length =
      (3 : Nat) :=
  (c8_display_exact_height.1
    { lines := [['a', 'b'], ['c']], cursor := { x := 0, y := 0 },
      view := { x := 0, y := 0, width := 5, height := 3 }, file_path := none }
    (by decide)).1

/-! Section: C9 — the three cases of `remove_char` -/

/-- C9: `remove_char()` behaves by three cases: at the end of a
non-last line it merges the current and next lines, keeping the cursor
at the same `(x, y)`; at the end of the last line it is a no-op; and
otherwise it deletes the character at the cursor's column without
moving the cursor. In particular on `["abc", "de"]` with cursor `(3,0)`
it yields `["abcde"]` with the cursor still at `(3,0)`. -/
theorem c9_remove_char_cases :
    (∀ (b : Buffer) (line next : List Char),
      b.lines[b.cursor.y]? = some line →
      b.lines[b.cursor.y + 1]? = some next →
      b.cursor.x = line.length →
      b.cursor_at_last_line = false →
      b.remove_char = some { b with lines := b.lines.take b.cursor.y ++ (line ++ next) :: b.lines.drop (b.cursor.y + 2) }) ∧
    (∀ (b : Buffer) (line : List Char),
      b.lines[b.cursor.y]? = some line →
      b.cursor.x = line.length →
      b.cursor_at_last_line = true →
      b.remove_char = some b) ∧
    (∀ (b : Buffer) (line : List Char),
      b.lines[b.cursor.y]? = some line →
      b.cursor.x < line.length →
      b.remove_char = some { b with lines := b.lines.set b.cursor.y (line.take b.cursor.x ++ line.drop (b.cursor.x + 1)) }) ∧
    Buffer.remove_char
        { lines := [['a', 'b', 'c'], ['d', 'e']], cursor := { x := 3, y := 0 },
          view := { x := 0, y := 0, width := 80, height := 24 }, file_path := none } =
      some { lines := [['a', 'b', 'c', 'd', 'e']], cursor := { x := 3, y := 0 },
             view := { x := 0, y := 0, width := 80, height := 24 }, file_path := none } := by
  refine ⟨fun b line next hline hnext hx hlast => ?_,
    fun b line hline hx hlast => ?_, fun b line hline hx => ?_, by decide⟩
  · have hylt := (List.getElem?_eq_some.mp hline).1
    have hy1 := (List.getElem?_eq_some.mp hnext).1
    unfold Buffer.remove_char
    rw [hline]
    simp only [hx, if_true, hlast, Bool.false_eq_true, if_false, eq_self_iff_true]
    unfold Buffer.join_lines
    rw [if_pos ⟨by omega, hy1⟩]
    rw [Option.some.injEq]
    have harith : b.cursor.y + 1 + 1 - b.cursor.y = 2 := by omega
    rw [harith]
    rw [List.drop_eq_getElem_cons hylt, (List.getElem?_eq_some.mp hline).2]
    rw [List.take_succ_cons]
    rw [List.drop_eq_getElem_cons hy1, (List.getElem?_eq_some.mp hnext).2]
    rw [List.take_succ_cons, List.take_zero]
    simp only [List.flatten_cons, List.flatten_nil, List.append_nil]
  · unfold Buffer.remove_char
    rw [hline]
    simp only [hx, if_true, hlast, eq_self_iff_true]
  · unfold Buffer.remove_char
    rw [hline]
    dsimp only
    rw [if_neg (by omega : ¬ b.cursor.x = line.length), if_pos hx]

/-- C9 witness: the merge case of `c9_remove_char_cases` on the
`["abc", "de"]` scenario. -/
theorem c9_remove_char_cases_witness :
    Buffer.remove_char
        { lines := [['a', 'b', 'c'], ['d', 'e']], cursor := { x := 3, y := 0 },
          view := { x := 0, y := 0, width := 80, height := 24 }, file_path := none } =
      some { lines := [] ++ (['a', 'b', 'c'] ++ ['d', 'e']) :: [],
             cursor := { x := 3, y := 0 },
             view := { x := 0, y := 0, width := 80, height := 24 }, file_path := none } :=
  c9_remove_char_cases.1
    { lines := [['a', 'b', 'c'], ['d', 'e']], cursor := { x := 3, y := 0 },
      view := { x := 0, y := 0, width := 80, height := 24 }, file_path := none }
    ['a', 'b', 'c'] ['d', 'e'] (by decide) (by decide) (by decide) (by decide)

/-! Section: C10 — the viewport-relative cursor of `display()` -/

/-- C10: `display()` computes the viewport-relative cursor by
natural-number subtraction on each axis; in a debug build this is total
exactly when `cursor.x ≥ view.min_x()` and `cursor.y ≥ view.min_y()`,
and under that precondition it returns exactly
`(cursor.x - view.min_x(), cursor.y - view.min_y())`. -/
theorem c10_display_cursor_translation (b : Buffer) :
    (b.view.min_x ≤ b.cursor.x ∧ b.view.min_y ≤ b.cursor.y →
      b.display_cursor =
        some { x := b.cursor.x - b.view.min_x, y := b.cursor.y - b.view.min_y }) ∧
    (¬ (b.view.min_x ≤ b.cursor.x ∧ b.view.min_y ≤ b.cursor.y) →
      b.display_cursor = none) := by
  unfold Buffer.display_cursor checkedSub
  constructor
  · intro ⟨h1, h2⟩
    rw [if_pos h1, if_pos h2]
  · intro hnot
    rcases not_and_or.mp hnot with h1 | h2
    · rw [if_neg h1]
    · rw [if_neg h2]
      split
      · rename_i heq1 heq2
        cases heq2
      · rfl

/-- C10 witness: both directions of `c10_display_cursor_translation`
evaluated on concrete buffers. -/
theorem c10_display_cursor_translation_witness :
    Buffer.display_cursor
        { lines := [['a']], cursor := { x := 7, y := 5 },
          view := { x := 3, y := 2, width := 80, height := 24 }, file_path := none } =
      some { x := 7 - 3, y := 5 - 2 } :=
  (c10_display_cursor_translation
    { lines := [['a']], cursor := { x := 7, y := 5 },
      view := { x := 3, y := 2, width := 80, height := 24 }, file_path := none }).1
    (by decide)

end Editor
